import Mathlib

/-!
Verification development for con-mon (src/main.rs), a network-health monitor:
a probe supervisor that spawns the external latency probe, reads its output
line by line under a 10-second timeout, parses each line with the fixed
pattern given by the regex in the source, appends parsed samples to a flushed
log file, and a periodic throughput sampler that appends records to a JSON
collection file.

The Rust source is shallowly embedded.  Strings are lists of characters;
the regex crate's leftmost-first greedy match semantics for the one fixed
pattern are implemented directly; machine integers appear as naturals with
the explicit bound 65535 where the u16 parse matters; fallible code returns
Except or Option; the concurrent teardown of a probe session (supervisor
task, watcher task, child process, oneshot channel) is a small labelled
transition system whose schedules are arbitrary label lists.
-/

namespace ConMon

/-- One parsed probe reading, mirroring the Rust struct with a verbatim
timestamp token and a latency in milliseconds.  The Rust u16 field is
modelled as a natural number; the parser enforces the bound 65535. -/
structure Ping where
  timestamp : String
  ms : Nat
deriving DecidableEq

/-- The parse-failure cases of the FromStr implementation: the regex
produced no captures, or the u16 parse of the captured digit group failed.
The Rust parse error is a ParseIntError, whose two reachable kinds here are
InvalidDigit (the group contains a character that is not an ASCII decimal
digit - possible because the regex digit class is wider than what u16
accepts) and PosOverflow (the value exceeds 65535). -/
inductive ParseError where
  | noMatch
  | invalidDigit
  | numericOverflow
deriving DecidableEq

/-- The non-ASCII ranges of the Unicode general category Nd, decimal digits,
as of Unicode 15.0, the class behind the regex crate's digit class.  Each
pair is an inclusive scalar range. -/
def ndRangesExt : List (Nat × Nat) := [
  (0x660, 0x669), (0x6F0, 0x6F9), (0x7C0, 0x7C9), (0x966, 0x96F),
  (0x9E6, 0x9EF), (0xA66, 0xA6F), (0xAE6, 0xAEF), (0xB66, 0xB6F),
  (0xBE6, 0xBEF), (0xC66, 0xC6F), (0xCE6, 0xCEF), (0xD66, 0xD6F),
  (0xDE6, 0xDEF), (0xE50, 0xE59), (0xED0, 0xED9), (0xF20, 0xF29),
  (0x1040, 0x1049), (0x1090, 0x1099), (0x17E0, 0x17E9), (0x1810, 0x1819),
  (0x1946, 0x194F), (0x19D0, 0x19D9), (0x1A80, 0x1A89), (0x1A90, 0x1A99),
  (0x1B50, 0x1B59), (0x1BB0, 0x1BB9), (0x1C40, 0x1C49), (0x1C50, 0x1C59),
  (0xA620, 0xA629), (0xA8D0, 0xA8D9), (0xA900, 0xA909), (0xA9D0, 0xA9D9),
  (0xA9F0, 0xA9F9), (0xAA50, 0xAA59), (0xABF0, 0xABF9), (0xFF10, 0xFF19),
  (0x104A0, 0x104A9), (0x10D30, 0x10D39), (0x11066, 0x1106F),
  (0x110F0, 0x110F9), (0x11136, 0x1113F), (0x111D0, 0x111D9),
  (0x112F0, 0x112F9), (0x11450, 0x11459), (0x114D0, 0x114D9),
  (0x11650, 0x11659), (0x116C0, 0x116C9), (0x11730, 0x11739),
  (0x118E0, 0x118E9), (0x11950, 0x11959), (0x11C50, 0x11C59),
  (0x11D50, 0x11D59), (0x11DA0, 0x11DA9), (0x11F50, 0x11F59),
  (0x16A60, 0x16A69), (0x16AC0, 0x16AC9), (0x16B50, 0x16B59),
  (0x1D7CE, 0x1D7FF), (0x1E140, 0x1E149), (0x1E2F0, 0x1E2F9),
  (0x1E4F0, 0x1E4F9), (0x1E950, 0x1E959), (0x1FBF0, 0x1FBF9)]

/-- The regex crate's Unicode-aware digit class: the ASCII digits together
with the other Nd ranges.  This is wider than the set u16 parsing accepts,
which is what makes the InvalidDigit failure of the program reachable. -/
def isNd (c : Char) : Bool :=
  c.isDigit ||
    ndRangesExt.any (fun r => decide (r.1 ≤ c.toNat) && decide (c.toNat ≤ r.2))

/-- Match the suffix pattern consisting of the literal characters of time=
followed by a greedy nonempty digit group, exactly at the head of the list.
The digit class is the Unicode-aware one the regex uses. -/
def timeAt : List Char → Option (List Char)
  | 't' :: 'i' :: 'm' :: 'e' :: '=' :: rest =>
      if (rest.takeWhile isNd).isEmpty then none
      else some (rest.takeWhile isNd)
  | _ => none

/-- Match a greedy dot-star followed by the time field at the given list,
with the backtracking semantics of the regex crate: the dot cannot cross a
newline, and the star first consumes as much as possible, so the digit group
comes from the last eligible occurrence of the time field. -/
def dotStarTime : List Char → Option (List Char)
  | [] => none
  | c :: rest =>
      if c = '\n' then timeAt (c :: rest)
      else
        match dotStarTime rest with
        | some ds => some ds
        | none => timeAt (c :: rest)

/-- Match the remainder of the bracket group pattern at the given list: a
greedy, possibly empty group extension, then the closing bracket, then the
greedy dot-star and the time field.  Returns the characters consumed by the
group extension together with the digit group.  Greedy means the extension
branch is preferred over closing the group here. -/
def extGroup : List Char → Option (List Char × List Char)
  | [] => none
  | c :: rest =>
      if c = '\n' then none
      else
        match extGroup rest with
        | some (g, ds) => some (c :: g, ds)
        | none =>
            if c = ']' then
              (dotStarTime rest).map (fun ds => (([] : List Char), ds))
            else none

/-- Match the whole pattern body after an opening bracket: a nonempty greedy
group (at least one non-newline character, then the greedy extension), the
closing bracket, and the time field. -/
def afterBracket : List Char → Option (List Char × List Char)
  | [] => none
  | c :: rest =>
      if c = '\n' then none
      else (extGroup rest).map (fun p => (c :: p.1, p.2))

/-- Leftmost-first search of the whole pattern, as Regex::captures performs
it: attempts start at each position from the left, an attempt requires an
opening bracket, and the first position whose attempt succeeds wins.
Returns the timestamp group and the digit group. -/
def findPing : List Char → Option (List Char × List Char)
  | [] => none
  | c :: rest =>
      if c = '[' then
        match afterBracket rest with
        | some r => some r
        | none => findPing rest
      else findPing rest

/-- Decimal value of a list of ASCII digit characters. -/
def natOfDigits : List Char → Nat :=
  List.foldl (fun acc c => acc * 10 + (c.toNat - 48)) 0

/-- Rust parse of the captured digit group into u16, character by character
as the core from_str_radix loop runs: each character must be an ASCII
decimal digit (to_digit is ASCII-only), checked before the accumulator
arithmetic, and the checked arithmetic fails as soon as the accumulated
value exceeds 65535.  A character of the wider regex digit class that is
not an ASCII digit therefore yields the InvalidDigit error. -/
def parseU16Core : Nat → List Char → Except ParseError Nat
  | acc, [] => Except.ok acc
  | acc, c :: rest =>
      if c.isDigit then
        if acc * 10 + (c.toNat - 48) ≤ 65535 then
          parseU16Core (acc * 10 + (c.toNat - 48)) rest
        else Except.error ParseError.numericOverflow
      else Except.error ParseError.invalidDigit

/-- The FromStr implementation for Ping: run the fixed regex; absence of a
match is the no-capture error, and a failed u16 parse of the digit group
propagates its error. -/
def parsePing (s : String) : Except ParseError Ping :=
  match findPing s.data with
  | none => Except.error ParseError.noMatch
  | some (ts, ds) =>
      match parseU16Core 0 ds with
      | Except.error e => Except.error e
      | Except.ok n => Except.ok { timestamp := String.mk ts, ms := n }

/-- Claim-level test: does the list begin with the five characters of time=
followed by at least one digit of the regex digit class? -/
def timeDigitHere : List Char → Bool
  | 't' :: 'i' :: 'm' :: 'e' :: '=' :: d :: _ => isNd d
  | _ => false

/-- Claim-level test: does the list contain a time field with at least one
digit anywhere? -/
def hasTimeDigit : List Char → Bool
  | [] => false
  | c :: rest => timeDigitHere (c :: rest) || hasTimeDigit rest

/-- Claim-level test: does the list contain a closing bracket followed
somewhere later by a time field with digits? -/
def closeThenTime : List Char → Bool
  | [] => false
  | c :: rest => (if c = ']' then hasTimeDigit rest else false) || closeThenTime rest

/-- Claim-level test: does the list begin with an opening bracket, at least
one body character, and then contain a closing bracket followed later by a
time field with digits? -/
def bracketHere : List Char → Bool
  | c :: _ :: rest => if c = '[' then closeThenTime rest else false
  | _ => false

/-- Claim-level pattern test for the no-match claim: the string contains an
enclosing bracket group with nonempty body and a subsequent time field with
digits.  This is the generous reading of the claim's hypothesis; the actual
matcher imposes strictly more (newline restrictions), so absence of this
pattern implies absence of a match. -/
def hasBracketThenTime : List Char → Bool
  | [] => false
  | c :: rest => bracketHere (c :: rest) || hasBracketThenTime rest

/-- Is the head of the list absent or outside the regex digit class?  Used
to state that a given digit group is maximal: the greedy group extends
across every Nd digit, not only the ASCII ones. -/
def headNotNd : List Char → Bool
  | [] => true
  | c :: _ => !(isNd c)

/-- Decimal digit character for a value below ten. -/
def digitChar (d : Nat) : Char := Char.ofNat (48 + d)

/-- Decimal rendering with structural fuel; the fuel always suffices since
dividing by ten strictly decreases a positive number. -/
def natDecimalAux : Nat → Nat → List Char
  | 0, _ => []
  | fuel + 1, n =>
      if n < 10 then [digitChar n]
      else natDecimalAux fuel (n / 10) ++ [digitChar (n % 10)]

/-- Decimal rendering of a natural number, as the Rust Display
implementation for u16 produces it. -/
def natDecimal (n : Nat) : List Char := natDecimalAux (n + 1) n

/-- The serialized sample line body written by the sink: the timestamp, one
space, and the decimal milliseconds, exactly the Display implementation for
Ping. -/
def renderPing (p : Ping) : List Char :=
  p.timestamp.data ++ ' ' :: natDecimal p.ms

/-- One observable effect of the sample sink. -/
inductive SinkOp where
  | write (bytes : List Char)
  | flush
deriving DecidableEq

/-- One sink append as performed inside the read loop: write_all of the
rendered line plus a newline, immediately followed by flush.  The state is
the file content paired with the trace of effects. -/
def sinkAppend : List Char × List SinkOp → Ping → List Char × List SinkOp
  | (file, ops), p =>
      (file ++ renderPing p ++ ['\n'],
       ops ++ [SinkOp.write (renderPing p ++ ['\n']), SinkOp.flush])

/-- Appending a list of parsed samples, in order, to an initially empty
sample log. -/
def sinkRun (ps : List Ping) : List Char × List SinkOp :=
  ps.foldl sinkAppend ([], [])

/-- Split file content into its newline-terminated lines; a trailing
fragment without a final newline counts as a last line, and empty content
has no lines. -/
def linesOf : List Char → List (List Char)
  | [] => []
  | c :: rest =>
      if c = '\n' then [] :: linesOf rest
      else
        match linesOf rest with
        | [] => [[c]]
        | l :: ls => (c :: l) :: ls

/-- Modelled subset of a serde JSON value.  Numbers are restricted to 64-bit
integers: the claims settled here never depend on float formatting, and the
reader below classifies input it cannot represent as unmodeled rather than
misparsing it. -/
inductive Json where
  | null
  | bool (b : Bool)
  | num (n : Int)
  | str (s : String)
  | arr (elems : List Json)
  | obj (fields : List (String × Json))

/-- Lower-case hexadecimal digit character for a value below sixteen. -/
def hexDigit (d : Nat) : Char :=
  if d < 10 then digitChar d else Char.ofNat (87 + d)

/-- serde string escaping of one character: quote, backslash and the named
control escapes, then the generic four-digit escape for other control
characters, and every other character verbatim. -/
def escChar (c : Char) : List Char :=
  if c = '"' then ['\\', '"']
  else if c = '\\' then ['\\', '\\']
  else if c = '\n' then ['\\', 'n']
  else if c = '\t' then ['\\', 't']
  else if c = '\r' then ['\\', 'r']
  else if c.toNat = 8 then ['\\', 'b']
  else if c.toNat = 12 then ['\\', 'f']
  else if c.toNat < 32 then
    ['\\', 'u', '0', '0', hexDigit (c.toNat / 16), hexDigit (c.toNat % 16)]
  else [c]

/-- Serialization of a JSON string literal: quote, escaped content,
quote. -/
def serStr (s : String) : List Char :=
  '"' :: (s.data.map escChar).flatten ++ ['"']

mutual
/-- Compact serialization of a JSON value, as serde to_writer produces it:
no added whitespace, elements separated by commas. -/
def jsonSer : Json → List Char
  | Json.null => ['n', 'u', 'l', 'l']
  | Json.bool true => ['t', 'r', 'u', 'e']
  | Json.bool false => ['f', 'a', 'l', 's', 'e']
  | Json.num n => (toString n).data
  | Json.str s => serStr s
  | Json.arr es => '[' :: jsonSerList es ++ [']']
  | Json.obj fs => Char.ofNat 123 :: jsonSerObj fs ++ [Char.ofNat 125]
termination_by structural j => j

/-- Comma-separated serialization of array elements. -/
def jsonSerList : List Json → List Char
  | [] => []
  | [x] => jsonSer x
  | x :: y :: rest => jsonSer x ++ ',' :: jsonSerList (y :: rest)
termination_by structural l => l

/-- Comma-separated serialization of object fields. -/
def jsonSerObj : List (String × Json) → List Char
  | [] => []
  | [(k, v)] => serStr k ++ ':' :: jsonSer v
  | (k, v) :: f :: rest =>
      serStr k ++ ':' :: jsonSer v ++ ',' :: jsonSerObj (f :: rest)
termination_by structural l => l
end

/-- JSON whitespace. -/
def isWs (c : Char) : Bool :=
  c = ' ' || c = '\n' || c = '\t' || c = '\r'

/-- Skip JSON whitespace. -/
def skipWs (cs : List Char) : List Char := cs.dropWhile isWs

/-- Hexadecimal value of one character, if any. -/
def hexVal (c : Char) : Option Nat :=
  if '0' ≤ c ∧ c ≤ '9' then some (c.toNat - 48)
  else if 'a' ≤ c ∧ c ≤ 'f' then some (c.toNat - 87)
  else if 'A' ≤ c ∧ c ≤ 'F' then some (c.toNat - 55)
  else none

/-- Result of one modelled parsing step: a parsed value with the remaining
input, a definite parse error (serde from_reader also fails at this input),
or an unmodeled construct (serde may accept it - floats, numbers beyond
64 bits - so the model gives no verdict rather than a wrong one). -/
inductive PRes (α : Type) where
  | ok (a : α) (rest : List Char)
  | bad
  | unk

/-- Parse the remainder of a JSON string literal, after its opening quote,
as serde does: the standard escapes, non-surrogate four-digit escapes, and
surrogate pairs (decoded to the supplementary-plane scalar) are accepted;
lone surrogates, unknown escapes, raw control characters and an unterminated
literal are errors, exactly as in serde. -/
def parseStrRest : Nat → List Char → PRes (List Char)
  | 0, _ => PRes.unk
  | _, [] => PRes.bad
  | fuel + 1, c :: rest =>
      if c = '"' then PRes.ok [] rest
      else if c = '\\' then
        match rest with
        | [] => PRes.bad
        | e :: rest2 =>
            if e = 'u' then
              match rest2 with
              | h1 :: h2 :: h3 :: h4 :: rest3 =>
                  match hexVal h1, hexVal h2, hexVal h3, hexVal h4 with
                  | some a, some b, some c2, some d =>
                      let n := ((a * 16 + b) * 16 + c2) * 16 + d
                      if 55296 ≤ n ∧ n < 56320 then
                        match rest3 with
                        | '\\' :: 'u' :: g1 :: g2 :: g3 :: g4 :: rest4 =>
                            match hexVal g1, hexVal g2, hexVal g3, hexVal g4 with
                            | some a2, some b2, some c3, some d2 =>
                                let m := ((a2 * 16 + b2) * 16 + c3) * 16 + d2
                                if 56320 ≤ m ∧ m < 57344 then
                                  match parseStrRest fuel rest4 with
                                  | PRes.ok s r => PRes.ok
                                      (Char.ofNat (65536 + (n - 55296) * 1024
                                        + (m - 56320)) :: s) r
                                  | PRes.bad => PRes.bad
                                  | PRes.unk => PRes.unk
                                else PRes.bad
                            | _, _, _, _ => PRes.bad
                        | _ => PRes.bad
                      else if 56320 ≤ n ∧ n < 57344 then PRes.bad
                      else
                        match parseStrRest fuel rest3 with
                        | PRes.ok s r => PRes.ok (Char.ofNat n :: s) r
                        | PRes.bad => PRes.bad
                        | PRes.unk => PRes.unk
                  | _, _, _, _ => PRes.bad
              | _ => PRes.bad
            else
              match
                (if e = '"' then some '"'
                 else if e = '\\' then some '\\'
                 else if e = '/' then some '/'
                 else if e = 'n' then some '\n'
                 else if e = 't' then some '\t'
                 else if e = 'r' then some '\r'
                 else if e = 'b' then some (Char.ofNat 8)
                 else if e = 'f' then some (Char.ofNat 12)
                 else none) with
              | some ch =>
                  match parseStrRest fuel rest2 with
                  | PRes.ok s r => PRes.ok (ch :: s) r
                  | PRes.bad => PRes.bad
                  | PRes.unk => PRes.unk
              | none => PRes.bad
      else if c.toNat < 32 then PRes.bad
      else
        match parseStrRest fuel rest with
        | PRes.ok s r => PRes.ok (c :: s) r
        | PRes.bad => PRes.bad
        | PRes.unk => PRes.unk

/-- Parse a JSON number literal.  Integers in 64-bit range are modelled;
a fraction or exponent continuation, a number beyond 64 bits (serde falls
back to floats there), and negative zero are classified unmodeled; inputs
on which serde itself errors (no digits, redundant leading zero making the
following digit trailing garbage) are errors. -/
def parseNum (cs : List Char) : PRes Int :=
  let negAndBody : Bool × List Char :=
    match cs with
    | '-' :: rest => (true, rest)
    | _ => (false, cs)
  let ds := negAndBody.2.takeWhile Char.isDigit
  let rest := negAndBody.2.dropWhile Char.isDigit
  if ds.isEmpty then PRes.bad
  else if 1 < ds.length ∧ ds.head? = some '0' then PRes.bad
  else
    match rest with
    | '.' :: _ => PRes.unk
    | 'e' :: _ => PRes.unk
    | 'E' :: _ => PRes.unk
    | _ =>
        if negAndBody.1 then
          if natOfDigits ds = 0 then PRes.unk
          else if natOfDigits ds ≤ 9223372036854775808 then
            PRes.ok (-(Int.ofNat (natOfDigits ds))) rest
          else PRes.unk
        else
          if natOfDigits ds ≤ 18446744073709551615 then
            PRes.ok (Int.ofNat (natOfDigits ds)) rest
          else PRes.unk

mutual
/-- Parse one JSON value at the given input, skipping leading whitespace,
with a structural fuel argument; the top-level entry point supplies enough
fuel for any input since every recursive call consumes input, and exhausted
fuel is conservatively classified unmodeled, never as an error. -/
def parseVal : Nat → List Char → PRes Json
  | 0, _ => PRes.unk
  | fuel + 1, cs =>
      match skipWs cs with
      | [] => PRes.bad
      | c :: rest =>
          if c = '[' then
            match skipWs rest with
            | ']' :: r => PRes.ok (Json.arr []) r
            | cs2 =>
                match parseElems fuel cs2 with
                | PRes.ok es r => PRes.ok (Json.arr es) r
                | PRes.bad => PRes.bad
                | PRes.unk => PRes.unk
          else if c = Char.ofNat 123 then
            match skipWs rest with
            | c2 :: r =>
                if c2 = Char.ofNat 125 then PRes.ok (Json.obj []) r
                else
                  match parseFields fuel (c2 :: r) with
                  | PRes.ok fs r2 => PRes.ok (Json.obj fs) r2
                  | PRes.bad => PRes.bad
                  | PRes.unk => PRes.unk
            | [] => PRes.bad
          else if c = '"' then
            match parseStrRest (rest.length + 1) rest with
            | PRes.ok s r => PRes.ok (Json.str (String.mk s)) r
            | PRes.bad => PRes.bad
            | PRes.unk => PRes.unk
          else if c = 'n' then
            match rest with
            | 'u' :: 'l' :: 'l' :: r => PRes.ok Json.null r
            | _ => PRes.bad
          else if c = 't' then
            match rest with
            | 'r' :: 'u' :: 'e' :: r => PRes.ok (Json.bool true) r
            | _ => PRes.bad
          else if c = 'f' then
            match rest with
            | 'a' :: 'l' :: 's' :: 'e' :: r => PRes.ok (Json.bool false) r
            | _ => PRes.bad
          else
            match parseNum (c :: rest) with
            | PRes.ok n r => PRes.ok (Json.num n) r
            | PRes.bad => PRes.bad
            | PRes.unk => PRes.unk

/-- Parse one or more comma-separated array elements and the closing
bracket. -/
def parseElems : Nat → List Char → PRes (List Json)
  | 0, _ => PRes.unk
  | fuel + 1, cs =>
      match parseVal fuel cs with
      | PRes.bad => PRes.bad
      | PRes.unk => PRes.unk
      | PRes.ok v rest =>
          match skipWs rest with
          | ',' :: r =>
              match parseElems fuel r with
              | PRes.ok es r2 => PRes.ok (v :: es) r2
              | PRes.bad => PRes.bad
              | PRes.unk => PRes.unk
          | ']' :: r => PRes.ok [v] r
          | _ => PRes.bad

/-- Parse one or more comma-separated object fields and the closing
brace. -/
def parseFields : Nat → List Char → PRes (List (String × Json))
  | 0, _ => PRes.unk
  | fuel + 1, cs =>
      match skipWs cs with
      | '"' :: rest =>
          match parseStrRest (rest.length + 1) rest with
          | PRes.bad => PRes.bad
          | PRes.unk => PRes.unk
          | PRes.ok k r1 =>
              match skipWs r1 with
              | ':' :: r2 =>
                  match parseVal fuel r2 with
                  | PRes.bad => PRes.bad
                  | PRes.unk => PRes.unk
                  | PRes.ok v r3 =>
                      match skipWs r3 with
                      | ',' :: r4 =>
                          match parseFields fuel r4 with
                          | PRes.ok fs r5 => PRes.ok ((String.mk k, v) :: fs) r5
                          | PRes.bad => PRes.bad
                          | PRes.unk => PRes.unk
                      | c2 :: r4 =>
                          if c2 = Char.ofNat 125 then
                            PRes.ok [(String.mk k, v)] r4
                          else PRes.bad
                      | [] => PRes.bad
              | _ => PRes.bad
      | _ => PRes.bad
end

/-- Outcome of reading the whole stream with serde from_reader: a value
(exactly one JSON value followed by nothing but whitespace), a malformed
stream on which serde also errors (empty input, a syntax error, trailing
data), or a stream reaching a construct outside the model, on which the
model gives no verdict. -/
inductive JsonRead where
  | value (v : Json)
  | malformed
  | unmodeled

/-- Classify the whole stream. -/
def readJson (s : String) : JsonRead :=
  match parseVal (s.data.length + 1) s.data with
  | PRes.ok v rest =>
      if skipWs rest = [] then JsonRead.value v else JsonRead.malformed
  | PRes.bad => JsonRead.malformed
  | PRes.unk => JsonRead.unmodeled

/-- serde from_reader collapsed to an option, the shape the tick consumes:
a value, or no value (the tick's match only distinguishes these two; the
unmodeled bucket is collapsed with the failures here, and every theorem
about the tick restricts itself to streams the model classifies). -/
def parseJsonFull (s : String) : Option Json :=
  match readJson s with
  | JsonRead.value v => some v
  | _ => none

/-- One tick of the throughput sampler, keyed on whether the external
executable exited successfully, its standard output text, and the current
content of the collection file (opened with the create flag, so an absent
file reads as empty).  Returns the file content after the tick and the
tick's result.  The file handle is opened in append mode, so the serde
to_writer call at the end of the tick adds its bytes after the existing
content rather than replacing it; a failed tick writes nothing.  A non-zero
exit status only logs and skips; unparseable executable output propagates as
an error; a readable file value that is not an array is the reported format
error; an unreadable file value falls back to a fresh one-element array. -/
def speed_tester (exitSuccess : Bool) (stdout : String) (fileBefore : String) :
    String × Except String Unit :=
  if exitSuccess = false then (fileBefore, Except.ok ())
  else
    match parseJsonFull stdout with
    | none => (fileBefore, Except.error "speedtest stdout is not one JSON value")
    | some record =>
        match parseJsonFull fileBefore with
        | some (Json.arr elems) =>
            (fileBefore ++ String.mk (jsonSer (Json.arr (elems ++ [record]))),
             Except.ok ())
        | some _ =>
            (fileBefore, Except.error "Speedtest file has wrong format, delete it")
        | none =>
            (fileBefore ++ String.mk (jsonSer (Json.arr [record])), Except.ok ())

/-- One observation of the supervisor's read loop: a line arrived within the
timeout, the stream ended, or the timeout elapsed. -/
inductive ReadEvent where
  | line (s : String)
  | eof
  | timeout
deriving DecidableEq

/-- The child probe process is running or has exited. -/
inductive ChildState where
  | running
  | exited
deriving DecidableEq

/-- The watcher task is blocked in its select, or has finished. -/
inductive WatcherState where
  | selecting
  | done
deriving DecidableEq

/-- The oneshot cancellation channel: untouched, sent, consumed by the
watcher's receive branch, or with its receiver dropped because the watcher's
wait branch won the select. -/
inductive ChanState where
  | empty
  | signaled
  | consumed
  | recvDropped
deriving DecidableEq

/-- The supervisor task: still in the read loop, returned Ok, or panicked at
the unwrap of the cancellation send. -/
inductive SessPhase where
  | looping
  | returnedOk
  | panicked
deriving DecidableEq

/-- Global state of one probe session: child process, watcher task, channel,
the stream observations the read loop has yet to consume, and the
supervisor's phase. -/
structure Sys where
  child : ChildState
  watcher : WatcherState
  chan : ChanState
  pending : List ReadEvent
  sess : SessPhase
deriving DecidableEq

/-- Scheduler labels: a supervisor step, the watcher's wait branch firing,
the watcher's receive branch firing, or a spontaneous child exit. -/
inductive Label where
  | sessStep
  | watcherWait
  | watcherRecv
  | childExit
deriving DecidableEq

/-- The tail of the supervisor after the read loop breaks: the cancellation
send followed by the unwrap and the immediate Ok return, with no await
between them and no join of the watcher.  The send panics when the receiver
was already dropped, and otherwise records the signal; in either case the
function does not wait for the child to be terminated. -/
def sessExit (s : Sys) (rest : List ReadEvent) : Sys :=
  match s.chan with
  | ChanState.recvDropped =>
      { s with pending := rest, sess := SessPhase.panicked }
  | ChanState.empty =>
      { s with pending := rest, chan := ChanState.signaled,
               sess := SessPhase.returnedOk }
  | _ => { s with pending := rest, sess := SessPhase.returnedOk }

/-- One scheduler step.  A label whose task is not enabled leaves the state
unchanged, so every label list is a valid schedule.  The wait branch of the
watcher fires only once the child has exited and drops the receiver; the
receive branch fires only on a sent signal and then kills the child and
awaits it.  A stream end is observable only after the child has exited, and
a timeout only while the child is running and silent. -/
def stepL (s : Sys) : Label → Sys
  | Label.childExit =>
      match s.child with
      | ChildState.running => { s with child := ChildState.exited }
      | ChildState.exited => s
  | Label.watcherWait =>
      if s.watcher = WatcherState.selecting ∧ s.child = ChildState.exited then
        { s with watcher := WatcherState.done, chan := ChanState.recvDropped }
      else s
  | Label.watcherRecv =>
      if s.watcher = WatcherState.selecting ∧ s.chan = ChanState.signaled then
        { s with watcher := WatcherState.done, chan := ChanState.consumed,
                 child := ChildState.exited }
      else s
  | Label.sessStep =>
      match s.sess, s.pending with
      | SessPhase.looping, ReadEvent.line _ :: rest => { s with pending := rest }
      | SessPhase.looping, ReadEvent.eof :: rest =>
          if s.child = ChildState.exited then sessExit s rest else s
      | SessPhase.looping, ReadEvent.timeout :: rest =>
          if s.child = ChildState.running then sessExit s rest else s
      | _, _ => s

/-- Run a schedule from a state. -/
def runSys (s : Sys) (sched : List Label) : Sys := sched.foldl stepL s

/-- Initial state of a session right after a successful spawn: child
running, watcher selecting, channel untouched, read loop ahead of the given
stream observations. -/
def initSys (evs : List ReadEvent) : Sys :=
  { child := ChildState.running, watcher := WatcherState.selecting,
    chan := ChanState.empty, pending := evs, sess := SessPhase.looping }

/-- The restart loop in main: the awaited session result is propagated with
the question mark operator, so a new session starts exactly when the
previous one returned Ok; a panic aborts the program instead. -/
def restartsSession : SessPhase → Bool
  | SessPhase.returnedOk => true
  | _ => false

/-- Inductive invariant of the session system: while the read loop runs the
channel is untouched or its receiver was dropped, and once the supervisor
has returned Ok the cancellation signal is pending or the watcher has
finished with the child exited. -/
def sysInv (s : Sys) : Prop :=
  (s.sess = SessPhase.looping →
    s.chan = ChanState.empty ∨ s.chan = ChanState.recvDropped) ∧
  (s.sess = SessPhase.returnedOk →
    s.chan = ChanState.signaled ∨
      (s.watcher = WatcherState.done ∧ s.child = ChildState.exited))

/-! Helper lemmas about the regex matcher. -/

theorem isDigit_ne_t {c : Char} (h : c.isDigit = true) : c ≠ 't' := by
  intro he
  subst he
  exact absurd h (by decide)

theorem isDigit_ne_rb {c : Char} (h : c.isDigit = true) : c ≠ ']' := by
  intro he
  subst he
  exact absurd h (by decide)

theorem isDigit_ne_nl {c : Char} (h : c.isDigit = true) : c ≠ '\n' := by
  intro he
  subst he
  exact absurd h (by decide)

theorem isDigit_isNd {c : Char} (h : c.isDigit = true) : isNd c = true := by
  simp [isNd, h]

theorem takeWhile_digits_exact (ds post : List Char)
    (hd : ∀ c ∈ ds, c.isDigit = true) (hp : headNotNd post = true) :
    (ds ++ post).takeWhile isNd = ds := by
  induction ds with
  | nil =>
      cases post with
      | nil => rfl
      | cons c p =>
          simp only [headNotNd, Bool.not_eq_true'] at hp
          simp [List.takeWhile_cons, hp]
  | cons d ds ih =>
      have hdd : isNd d = true := isDigit_isNd (hd d (by simp))
      simp only [List.cons_append, List.takeWhile_cons, hdd, if_true]
      rw [ih (fun c hc => hd c (by simp [hc]))]

theorem timeAt_exact (ds post : List Char) (h0 : ds ≠ [])
    (hd : ∀ c ∈ ds, c.isDigit = true) (hp : headNotNd post = true) :
    timeAt ('t' :: 'i' :: 'm' :: 'e' :: '=' :: (ds ++ post)) = some ds := by
  have ht := takeWhile_digits_exact ds post hd hp
  simp only [timeAt, ht]
  simp [h0]

theorem timeAt_none (c : Char) (cs : List Char) (h : c ≠ 't') :
    timeAt (c :: cs) = none := by
  unfold timeAt
  split
  · simp_all
  · rfl

theorem dotStarTime_cons (c : Char) (rest : List Char) :
    dotStarTime (c :: rest) =
      if c = '\n' then timeAt (c :: rest)
      else
        match dotStarTime rest with
        | some ds => some ds
        | none => timeAt (c :: rest) := rfl

theorem extGroup_cons (c : Char) (rest : List Char) :
    extGroup (c :: rest) =
      if c = '\n' then none
      else
        match extGroup rest with
        | some (g, ds) => some (c :: g, ds)
        | none =>
            if c = ']' then
              (dotStarTime rest).map (fun ds => (([] : List Char), ds))
            else none := rfl

theorem afterBracket_cons (c : Char) (rest : List Char) :
    afterBracket (c :: rest) =
      if c = '\n' then none
      else (extGroup rest).map (fun p => (c :: p.1, p.2)) := rfl

theorem findPing_cons (c : Char) (rest : List Char) :
    findPing (c :: rest) =
      if c = '[' then
        match afterBracket rest with
        | some r => some r
        | none => findPing rest
      else findPing rest := rfl

theorem dotStarTime_none (cs : List Char) (h : ∀ c ∈ cs, c ≠ 't') :
    dotStarTime cs = none := by
  induction cs with
  | nil => rfl
  | cons c rest ih =>
      have hc : c ≠ 't' := h c (by simp)
      have hr : dotStarTime rest = none := ih (fun x hx => h x (by simp [hx]))
      rw [dotStarTime_cons, hr, timeAt_none c rest hc]
      split <;> rfl

theorem dotStarTime_exact (mid ds post : List Char)
    (hm : ∀ c ∈ mid, c ≠ '\n')
    (h0 : ds ≠ []) (hd : ∀ c ∈ ds, c.isDigit = true)
    (hpt : ∀ c ∈ post, c ≠ 't') (hph : headNotNd post = true) :
    dotStarTime (mid ++ 't' :: 'i' :: 'm' :: 'e' :: '=' :: (ds ++ post))
      = some ds := by
  induction mid with
  | nil =>
      have hrest : dotStarTime ('i' :: 'm' :: 'e' :: '=' :: (ds ++ post)) = none := by
        apply dotStarTime_none
        intro c hc
        simp only [List.mem_cons, List.mem_append] at hc
        rcases hc with h | h | h | h | h | h
        · subst h; decide
        · subst h; decide
        · subst h; decide
        · subst h; decide
        · exact isDigit_ne_t (hd c h)
        · exact hpt c h
      rw [List.nil_append, dotStarTime_cons, if_neg (by decide), hrest]
      exact timeAt_exact ds post h0 hd hph
  | cons c mid ih =>
      have hc : c ≠ '\n' := hm c (by simp)
      have hr := ih (fun x hx => hm x (by simp [hx]))
      rw [List.cons_append, dotStarTime_cons, if_neg hc, hr]

theorem extGroup_none (cs : List Char) (h : ∀ c ∈ cs, c ≠ ']') :
    extGroup cs = none := by
  induction cs with
  | nil => rfl
  | cons c rest ih =>
      have hc : c ≠ ']' := h c (by simp)
      have hr : extGroup rest = none := ih (fun x hx => h x (by simp [hx]))
      rw [extGroup_cons, hr]
      simp [hc]

theorem extGroup_exact (a mid ds post : List Char)
    (ha : ∀ c ∈ a, c ≠ '\n')
    (hmn : ∀ c ∈ mid, c ≠ '\n') (hmb : ∀ c ∈ mid, c ≠ ']')
    (h0 : ds ≠ []) (hd : ∀ c ∈ ds, c.isDigit = true)
    (hpt : ∀ c ∈ post, c ≠ 't') (hpb : ∀ c ∈ post, c ≠ ']')
    (hph : headNotNd post = true) :
    extGroup (a ++ ']' :: (mid ++ 't' :: 'i' :: 'm' :: 'e' :: '=' :: (ds ++ post)))
      = some (a, ds) := by
  induction a with
  | nil =>
      have hnone :
          extGroup (mid ++ 't' :: 'i' :: 'm' :: 'e' :: '=' :: (ds ++ post)) = none := by
        apply extGroup_none
        intro c hc
        simp only [List.mem_append, List.mem_cons] at hc
        rcases hc with h | h | h | h | h | h | h | h
        · exact hmb c h
        · subst h; decide
        · subst h; decide
        · subst h; decide
        · subst h; decide
        · subst h; decide
        · exact isDigit_ne_rb (hd c h)
        · exact hpb c h
      rw [List.nil_append, extGroup_cons, hnone,
        dotStarTime_exact mid ds post hmn h0 hd hpt hph]
      rfl
  | cons c a ih =>
      have hc : c ≠ '\n' := ha c (by simp)
      have hr := ih (fun x hx => ha x (by simp [hx]))
      rw [List.cons_append, extGroup_cons, if_neg hc, hr]

theorem afterBracket_exact (a mid ds post : List Char) (h0a : a ≠ [])
    (ha : ∀ c ∈ a, c ≠ '\n')
    (hmn : ∀ c ∈ mid, c ≠ '\n') (hmb : ∀ c ∈ mid, c ≠ ']')
    (h0 : ds ≠ []) (hd : ∀ c ∈ ds, c.isDigit = true)
    (hpt : ∀ c ∈ post, c ≠ 't') (hpb : ∀ c ∈ post, c ≠ ']')
    (hph : headNotNd post = true) :
    afterBracket (a ++ ']' :: (mid ++ 't' :: 'i' :: 'm' :: 'e' :: '=' :: (ds ++ post)))
      = some (a, ds) := by
  cases a with
  | nil => exact absurd rfl h0a
  | cons c a' =>
      have hc : c ≠ '\n' := ha c (by simp)
      have he := extGroup_exact a' mid ds post
        (fun x hx => ha x (by simp [hx])) hmn hmb h0 hd hpt hpb hph
      rw [List.cons_append, afterBracket_cons, if_neg hc, he]
      rfl

theorem findPing_exact (pre a mid ds post : List Char)
    (hpre : ∀ c ∈ pre, c ≠ '[') (h0a : a ≠ [])
    (ha : ∀ c ∈ a, c ≠ '\n')
    (hmn : ∀ c ∈ mid, c ≠ '\n') (hmb : ∀ c ∈ mid, c ≠ ']')
    (h0 : ds ≠ []) (hd : ∀ c ∈ ds, c.isDigit = true)
    (hpt : ∀ c ∈ post, c ≠ 't') (hpb : ∀ c ∈ post, c ≠ ']')
    (hph : headNotNd post = true) :
    findPing (pre ++ '[' :: (a ++ ']' :: (mid
        ++ 't' :: 'i' :: 'm' :: 'e' :: '=' :: (ds ++ post))))
      = some (a, ds) := by
  induction pre with
  | nil =>
      have hb := afterBracket_exact a mid ds post h0a ha hmn hmb h0 hd hpt hpb hph
      rw [List.nil_append, findPing_cons, if_pos rfl, hb]
  | cons c pre ih =>
      have hc : c ≠ '[' := hpre c (by simp)
      have hr := ih (fun x hx => hpre x (by simp [hx]))
      rw [List.cons_append, findPing_cons, if_neg hc, hr]

/-! Completeness of the claim-level pattern test: a successful regex match
implies the presence of a bracket group followed by a time field. -/

theorem timeAt_hasTime (cs ds : List Char) (h : timeAt cs = some ds) :
    hasTimeDigit cs = true := by
  unfold timeAt at h
  split at h
  · next rest =>
      split at h
      · exact absurd h (by simp)
      · next hne =>
          cases rest with
          | nil => simp at hne
          | cons d r =>
              by_cases hd : isNd d = true
              · simp [hasTimeDigit, timeDigitHere, hd]
              · simp [List.takeWhile_cons, hd] at hne
  · exact absurd h (by simp)

theorem dotStarTime_hasTime (cs ds : List Char) (h : dotStarTime cs = some ds) :
    hasTimeDigit cs = true := by
  induction cs generalizing ds with
  | nil => exact absurd h (by simp [dotStarTime])
  | cons c rest ih =>
      rw [dotStarTime_cons] at h
      split at h
      · exact timeAt_hasTime _ _ h
      · split at h
        · next ds' hds' =>
            have hr := ih ds' hds'
            simp [hasTimeDigit, hr]
        · exact timeAt_hasTime _ _ h

theorem extGroup_close (cs : List Char) (p : List Char × List Char)
    (h : extGroup cs = some p) : closeThenTime cs = true := by
  induction cs generalizing p with
  | nil => exact absurd h (by simp [extGroup])
  | cons c rest ih =>
      rw [extGroup_cons] at h
      split at h
      · exact absurd h (by simp)
      · split at h
        · next g ds hgd =>
            have hr := ih (g, ds) hgd
            simp [closeThenTime, hr]
        · split at h
          · next hcb =>
              cases hdst : dotStarTime rest with
              | none => rw [hdst] at h; exact absurd h (by simp)
              | some ds =>
                  have ht := dotStarTime_hasTime rest ds hdst
                  simp [closeThenTime, hcb, ht]
          · exact absurd h (by simp)

theorem findPing_has (cs : List Char) (p : List Char × List Char)
    (h : findPing cs = some p) : hasBracketThenTime cs = true := by
  induction cs generalizing p with
  | nil => exact absurd h (by simp [findPing])
  | cons c rest ih =>
      rw [findPing_cons] at h
      split at h
      · next hcb =>
          split at h
          · next r hab =>
              cases rest with
              | nil => exact absurd hab (by simp [afterBracket])
              | cons c2 rest2 =>
                  rw [afterBracket_cons] at hab
                  split at hab
                  · exact absurd hab (by simp)
                  · cases hext : extGroup rest2 with
                    | none => rw [hext] at hab; exact absurd hab (by simp)
                    | some q =>
                        have hct := extGroup_close rest2 q hext
                        simp [hasBracketThenTime, bracketHere, hcb, hct]
          · have hr := ih p h
            simp [hasBracketThenTime, hr]
      · have hr := ih p h
        simp [hasBracketThenTime, hr]

/-! Helper lemmas about the u16 parse of the captured digit group. -/

theorem natOfDigits_foldl (ds : List Char) :
    natOfDigits ds = List.foldl (fun a c => a * 10 + (c.toNat - 48)) 0 ds := rfl

theorem foldl_digits_ge (ds : List Char) :
    ∀ acc, acc ≤ List.foldl (fun a c => a * 10 + (c.toNat - 48)) acc ds := by
  induction ds with
  | nil => intro acc; exact Nat.le_refl acc
  | cons c ds ih =>
      intro acc
      simp only [List.foldl_cons]
      exact Nat.le_trans (by omega) (ih (acc * 10 + (c.toNat - 48)))

theorem parseU16_ok (ds : List Char) :
    ∀ acc, (∀ c ∈ ds, c.isDigit = true) →
      List.foldl (fun a c => a * 10 + (c.toNat - 48)) acc ds ≤ 65535 →
      parseU16Core acc ds
        = Except.ok (List.foldl (fun a c => a * 10 + (c.toNat - 48)) acc ds) := by
  induction ds with
  | nil => intro acc _ _; rfl
  | cons c ds ih =>
      intro acc hd hv
      have hc : c.isDigit = true := hd c (by simp)
      simp only [List.foldl_cons] at hv ⊢
      have hstep : acc * 10 + (c.toNat - 48) ≤ 65535 :=
        Nat.le_trans (foldl_digits_ge ds (acc * 10 + (c.toNat - 48))) hv
      simp only [parseU16Core, hc, if_true, if_pos hstep]
      exact ih (acc * 10 + (c.toNat - 48)) (fun x hx => hd x (by simp [hx])) hv

theorem parseU16_overflow (ds : List Char) :
    ∀ acc, (∀ c ∈ ds, c.isDigit = true) → acc ≤ 65535 →
      65535 < List.foldl (fun a c => a * 10 + (c.toNat - 48)) acc ds →
      parseU16Core acc ds = Except.error ParseError.numericOverflow := by
  induction ds with
  | nil => intro acc _ hacc hv; simp only [List.foldl_nil] at hv; omega
  | cons c ds ih =>
      intro acc hd hacc hv
      have hc : c.isDigit = true := hd c (by simp)
      simp only [List.foldl_cons] at hv
      by_cases hstep : acc * 10 + (c.toNat - 48) ≤ 65535
      · simp only [parseU16Core, hc, if_true, if_pos hstep]
        exact ih (acc * 10 + (c.toNat - 48))
          (fun x hx => hd x (by simp [hx])) hstep hv
      · simp only [parseU16Core, hc, if_true, if_neg hstep]

theorem parseU16_cases (ds : List Char) :
    ∀ acc, acc ≤ 65535 →
      parseU16Core acc ds = Except.error ParseError.invalidDigit ∨
      parseU16Core acc ds = Except.error ParseError.numericOverflow ∨
      ∃ n, n ≤ 65535 ∧ parseU16Core acc ds = Except.ok n := by
  induction ds with
  | nil => intro acc hacc; exact Or.inr (Or.inr ⟨acc, hacc, rfl⟩)
  | cons c ds ih =>
      intro acc hacc
      by_cases hc : c.isDigit = true
      · by_cases hstep : acc * 10 + (c.toNat - 48) ≤ 65535
        · have heq : parseU16Core acc (c :: ds)
              = parseU16Core (acc * 10 + (c.toNat - 48)) ds := by
            simp only [parseU16Core, hc, if_true, if_pos hstep]
          rw [heq]
          exact ih (acc * 10 + (c.toNat - 48)) hstep
        · have heq : parseU16Core acc (c :: ds)
              = Except.error ParseError.numericOverflow := by
            simp only [parseU16Core, hc, if_true, if_neg hstep]
          rw [heq]
          exact Or.inr (Or.inl rfl)
      · have hcf : c.isDigit = false := by
          simp only [Bool.not_eq_true] at hc
          exact hc
        have heq : parseU16Core acc (c :: ds)
            = Except.error ParseError.invalidDigit := by
          simp [parseU16Core, hcf]
        rw [heq]
        exact Or.inl rfl

/-! Helper lemmas about the sample sink. -/

theorem digitChar_isDigit {d : Nat} (hd : d < 10) :
    (digitChar d).isDigit = true := by
  interval_cases d <;> decide

theorem natDecimalAux_digits (fuel : Nat) :
    ∀ n, n < fuel → ∀ c ∈ natDecimalAux fuel n, c.isDigit = true := by
  induction fuel with
  | zero => intro n hn; omega
  | succ fuel ih =>
      intro n hn c hc
      unfold natDecimalAux at hc
      split at hc
      · next h10 =>
          simp only [List.mem_singleton] at hc
          subst hc
          exact digitChar_isDigit h10
      · next h10 =>
          rw [List.mem_append] at hc
          rcases hc with hc | hc
          · exact ih (n / 10) (by omega) c hc
          · simp only [List.mem_singleton] at hc
            subst hc
            exact digitChar_isDigit (Nat.mod_lt _ (by omega))

theorem natDecimal_digits (n : Nat) :
    ∀ c ∈ natDecimal n, c.isDigit = true :=
  natDecimalAux_digits (n + 1) n (by omega)

theorem renderPing_ne_nl (p : Ping) (h : ∀ c ∈ p.timestamp.data, c ≠ '\n') :
    ∀ c ∈ renderPing p, c ≠ '\n' := by
  intro c hc
  unfold renderPing at hc
  rw [List.mem_append] at hc
  rcases hc with hc | hc
  · exact h c hc
  · rcases List.mem_cons.mp hc with hc | hc
    · subst hc; decide
    · exact isDigit_ne_nl (natDecimal_digits p.ms c hc)

theorem linesOf_cons (c : Char) (rest : List Char) :
    linesOf (c :: rest) =
      if c = '\n' then [] :: linesOf rest
      else
        match linesOf rest with
        | [] => [[c]]
        | l :: ls => (c :: l) :: ls := rfl

theorem linesOf_line (l rest : List Char) (h : ∀ c ∈ l, c ≠ '\n') :
    linesOf (l ++ '\n' :: rest) = l :: linesOf rest := by
  induction l with
  | nil =>
      rw [List.nil_append, linesOf_cons, if_pos rfl]
  | cons c l ih =>
      have hc : c ≠ '\n' := h c (by simp)
      have hr := ih (fun x hx => h x (by simp [hx]))
      rw [List.cons_append, linesOf_cons, if_neg hc, hr]

theorem sink_fold (ps : List Ping) :
    ∀ file ops, List.foldl sinkAppend (file, ops) ps =
      (file ++ (ps.map (fun p => renderPing p ++ ['\n'])).flatten,
       ops ++ (ps.map
         (fun p => [SinkOp.write (renderPing p ++ ['\n']), SinkOp.flush])).flatten) := by
  induction ps with
  | nil => intro file ops; simp
  | cons p ps ih =>
      intro file ops
      simp only [List.foldl_cons, sinkAppend, ih, List.map_cons, List.flatten_cons,
        List.append_assoc]

theorem linesOf_flatten (ps : List Ping)
    (h : ∀ p ∈ ps, ∀ c ∈ p.timestamp.data, c ≠ '\n') :
    linesOf ((ps.map (fun p => renderPing p ++ ['\n'])).flatten)
      = ps.map renderPing := by
  induction ps with
  | nil => rfl
  | cons p ps ih =>
      have hp := renderPing_ne_nl p (h p (by simp))
      have hr := ih (fun q hq => h q (by simp [hq]))
      simp only [List.map_cons, List.flatten_cons, List.append_assoc,
        List.singleton_append]
      rw [linesOf_line _ _ hp, hr]

/-! Helper lemmas about the probe session transition system. -/

theorem sysInv_init (evs : List ReadEvent) : sysInv (initSys evs) := by
  constructor
  · intro _; exact Or.inl rfl
  · intro h; exact absurd h (by simp [initSys])

theorem sysInv_step (s : Sys) (l : Label) (h : sysInv s) : sysInv (stepL s l) := by
  obtain ⟨c, w, ch, pend, ss⟩ := s
  cases l <;> cases c <;> cases w <;> cases ch <;> cases ss <;>
    rcases pend with _ | ⟨ev, rest⟩ <;> (try cases ev) <;>
    first
      | exact h
      | simp_all [sysInv, stepL, sessExit]

theorem sysInv_run (sched : List Label) :
    ∀ s, sysInv s → sysInv (runSys s sched) := by
  induction sched with
  | nil => intro s h; exact h
  | cons l sched ih =>
      intro s h
      exact ih (stepL s l) (sysInv_step s l h)

/-! Claim theorems. -/

/-- C1: the claim says a successful throughput tick rewrites the collection
file so that it contains a single JSON array extending the previous one and
still deserializes as an array.  The code opens the file in append mode and
serde to_writer therefore appends the whole updated array after the old
content: starting from the valid one-element array text, with a successful
run whose parsed output is the JSON value 2, the tick reports success but
the file content no longer deserializes as any JSON value, in particular
not as an array of length two. -/
theorem C1_append_mode_corrupts :
    speed_tester true "2" "[1]" = ("[1][1,2]", Except.ok ()) ∧
    parseJsonFull "[1][1,2]" = none :=
  ⟨rfl, rfl⟩

/-- C2 counterexample: with a stream that stalls once and a schedule that
runs only the supervisor task, the session returns Ok while the child probe
process is still running and the watcher has not acted, so the session does
not terminate and await the child before returning. -/
theorem C2_counterexample :
    (runSys (initSys [ReadEvent.timeout]) [Label.sessStep]).sess
        = SessPhase.returnedOk ∧
    (runSys (initSys [ReadEvent.timeout]) [Label.sessStep]).child
        = ChildState.running ∧
    (runSys (initSys [ReadEvent.timeout]) [Label.sessStep]).watcher
        = WatcherState.selecting :=
  ⟨rfl, rfl, rfl⟩

/-- C2, amended: whenever the session has returned Ok, the cancellation
signal it sent on loop exit is still pending for the watcher, or the watcher
has already finished with the child exited; and whenever a pending signal
reaches a still-selecting watcher, that watcher's receive step terminates
the child and completes.  The session itself, however, may return before
the child is terminated, as the counterexample shows. -/
theorem C2_cancellation_pending (evs : List ReadEvent) (sched : List Label)
    (h : (runSys (initSys evs) sched).sess = SessPhase.returnedOk) :
    ((runSys (initSys evs) sched).chan = ChanState.signaled ∨
      ((runSys (initSys evs) sched).watcher = WatcherState.done ∧
       (runSys (initSys evs) sched).child = ChildState.exited)) ∧
    ∀ s : Sys, s.watcher = WatcherState.selecting → s.chan = ChanState.signaled →
      (stepL s Label.watcherRecv).child = ChildState.exited ∧
      (stepL s Label.watcherRecv).watcher = WatcherState.done := by
  constructor
  · exact (sysInv_run sched (initSys evs) (sysInv_init evs)).2 h
  · intro s hw hc
    constructor <;> simp [stepL, hw, hc]

/-- C2 witness: the amended theorem applied to the stalled-stream schedule
of the counterexample. -/
theorem C2_witness :
    (runSys (initSys [ReadEvent.timeout]) [Label.sessStep]).sess
        = SessPhase.returnedOk ∧
    (((runSys (initSys [ReadEvent.timeout]) [Label.sessStep]).chan
          = ChanState.signaled ∨
        ((runSys (initSys [ReadEvent.timeout]) [Label.sessStep]).watcher
            = WatcherState.done ∧
         (runSys (initSys [ReadEvent.timeout]) [Label.sessStep]).child
            = ChildState.exited)) ∧
      ∀ s : Sys, s.watcher = WatcherState.selecting →
        s.chan = ChanState.signaled →
        (stepL s Label.watcherRecv).child = ChildState.exited ∧
        (stepL s Label.watcherRecv).watcher = WatcherState.done) :=
  ⟨rfl, C2_cancellation_pending [ReadEvent.timeout] [Label.sessStep] rfl⟩

/-- C3: the claim says a session that ends at end-of-input returns
successfully and the restart loop starts a new session.  On the schedule
where the child exits, the watcher's wait branch wins the select and drops
the receiver, and the supervisor then reads end-of-input and breaks, the
send-unwrap in the teardown panics instead of returning Ok, and no new
session is started. -/
theorem C3_eof_race_panics :
    (runSys (initSys [ReadEvent.eof])
        [Label.childExit, Label.watcherWait, Label.sessStep]).sess
      = SessPhase.panicked ∧
    restartsSession (runSys (initSys [ReadEvent.eof])
        [Label.childExit, Label.watcherWait, Label.sessStep]).sess = false :=
  ⟨rfl, rfl⟩

/-- C4 counterexample: this line contains the bracketed group of the single
character a followed by a time field whose digit 5 fits 16 bits, yet parsing
does not succeed with that timestamp and value: the greedy dot-star selects
the last time field on the line, whose digits exceed 65535, so the parse
fails with the overflow error. -/
theorem C4_counterexample :
    parsePing "[a] time=5 time=99999" = Except.error ParseError.numericOverflow ∧
    hasBracketThenTime ("[a] time=5 time=99999").data = true :=
  ⟨rfl, by decide⟩

/-- C4, amended: on a line consisting of anything without an opening bracket,
then a bracketed nonempty timestamp free of newlines and closing brackets,
then a middle segment free of newlines and closing brackets, then the time
field selected by the greedy match - that is, the last time field of the
line, with nothing after its digit run that could extend it (maximality in
the regex's Unicode-aware digit class) or displace it - parsing succeeds and returns exactly that bracketed timestamp verbatim
and the numeric value of those digits, provided the value fits 16 bits. -/
theorem C4_parse_greedy (pre a mid ds post : List Char)
    (hpre : ∀ c ∈ pre, c ≠ '[') (h0a : a ≠ [])
    (ha : ∀ c ∈ a, c ≠ '\n')
    (hmn : ∀ c ∈ mid, c ≠ '\n') (hmb : ∀ c ∈ mid, c ≠ ']')
    (h0 : ds ≠ []) (hd : ∀ c ∈ ds, c.isDigit = true)
    (hpt : ∀ c ∈ post, c ≠ 't') (hpb : ∀ c ∈ post, c ≠ ']')
    (hph : headNotNd post = true)
    (hval : natOfDigits ds ≤ 65535) :
    parsePing (String.mk (pre ++ '[' :: (a ++ ']' :: (mid
        ++ 't' :: 'i' :: 'm' :: 'e' :: '=' :: (ds ++ post)))))
      = Except.ok { timestamp := String.mk a, ms := natOfDigits ds } := by
  have hf := findPing_exact pre a mid ds post hpre h0a ha hmn hmb h0 hd hpt hpb hph
  have hval' := hval
  rw [natOfDigits_foldl] at hval'
  have hu : parseU16Core 0 ds = Except.ok (natOfDigits ds) := by
    rw [natOfDigits_foldl]
    exact parseU16_ok ds 0 hd hval'
  unfold parsePing
  simp only [show (String.mk (pre ++ '[' :: (a ++ ']' :: (mid
      ++ 't' :: 'i' :: 'm' :: 'e' :: '=' :: (ds ++ post))))).data
      = pre ++ '[' :: (a ++ ']' :: (mid
        ++ 't' :: 'i' :: 'm' :: 'e' :: '=' :: (ds ++ post))) from rfl, hf, hu]

/-- C4 witness: the amended theorem applied to the line consisting of the
bracketed timestamp a, a space, and the time field with digits 23. -/
theorem C4_witness :
    (∀ c ∈ ([] : List Char), c ≠ '[') ∧ (['a'] ≠ ([] : List Char)) ∧
    (∀ c ∈ ['a'], c ≠ '\n') ∧
    (∀ c ∈ [' '], c ≠ '\n') ∧ (∀ c ∈ [' '], c ≠ ']') ∧
    (['2', '3'] ≠ ([] : List Char)) ∧ (∀ c ∈ ['2', '3'], c.isDigit = true) ∧
    (∀ c ∈ ([] : List Char), c ≠ 't') ∧ (∀ c ∈ ([] : List Char), c ≠ ']') ∧
    headNotNd [] = true ∧ natOfDigits ['2', '3'] ≤ 65535 ∧
    parsePing (String.mk ([] ++ '[' :: (['a'] ++ ']' :: ([' ']
        ++ 't' :: 'i' :: 'm' :: 'e' :: '=' :: (['2', '3'] ++ [])))))
      = Except.ok { timestamp := String.mk ['a'], ms := natOfDigits ['2', '3'] } :=
  ⟨by decide, by decide, by decide, by decide, by decide, by decide, by decide,
   by decide, by decide, by decide, by decide,
   C4_parse_greedy [] ['a'] [' '] ['2', '3'] []
     (by decide) (by decide) (by decide) (by decide) (by decide) (by decide)
     (by decide) (by decide) (by decide) (by decide) (by decide)⟩

/-- C5: a string that does not contain an enclosing bracket group with a
nonempty body followed later by a time field with at least one digit never
matches the regex, and the parse fails with the no-match error rather than
any other error. -/
theorem C5_no_match (s : String)
    (h : hasBracketThenTime s.data = false) :
    parsePing s = Except.error ParseError.noMatch := by
  cases hf : findPing s.data with
  | none =>
      unfold parsePing
      rw [hf]
  | some p =>
      have ht := findPing_has s.data p hf
      rw [ht] at h
      exact absurd h (by simp)

/-- C5 witness: the spec's end-to-end garbage line lacks the pattern and
fails with the no-match error. -/
theorem C5_witness :
    hasBracketThenTime ("garbage output").data = false ∧
    parsePing "garbage output" = Except.error ParseError.noMatch :=
  ⟨by decide, C5_no_match "garbage output" (by decide)⟩

/-- C6: on any line the regex matches whose captured group consists of
ASCII decimal digits - the case in which the digits denote a decimal value
at all for the u16 parse - if that value exceeds 65535 then the parse fails
with the numeric overflow error; the value is never clamped into a sample.
A captured group containing a non-ASCII digit of the wider regex class is a
different failure, the invalid-digit error covered by the totality
theorem. -/
theorem C6_overflow (s : String) (ts ds : List Char)
    (h : findPing s.data = some (ts, ds))
    (hd : ∀ c ∈ ds, c.isDigit = true)
    (hv : 65535 < natOfDigits ds) :
    parsePing s = Except.error ParseError.numericOverflow := by
  have hv' := hv
  rw [natOfDigits_foldl] at hv'
  have hu : parseU16Core 0 ds = Except.error ParseError.numericOverflow :=
    parseU16_overflow ds 0 hd (by omega) hv'
  unfold parsePing
  simp only [h, hu]

/-- C6 witness: a line whose time field digits denote 99999. -/
theorem C6_witness :
    findPing ("[a] time=99999").data = some (['a'], ['9', '9', '9', '9', '9']) ∧
    (∀ c ∈ ['9', '9', '9', '9', '9'], c.isDigit = true) ∧
    65535 < natOfDigits ['9', '9', '9', '9', '9'] ∧
    parsePing "[a] time=99999" = Except.error ParseError.numericOverflow :=
  ⟨by decide, by decide, by decide,
   C6_overflow "[a] time=99999" ['a'] ['9', '9', '9', '9', '9']
     (by decide) (by decide) (by decide)⟩

/-- C7: the parser is a pure total function on arbitrary text: every input
yields the no-match error, one of the two u16 parse errors (a captured
digit outside the ASCII range, or a value beyond 65535), or a sample whose
latency fits 16 bits; there is no other outcome and no panic, since every
partial Rust operation in the implementation is modelled and handled. -/
theorem C7_parser_total (s : String) :
    parsePing s = Except.error ParseError.noMatch ∨
    parsePing s = Except.error ParseError.invalidDigit ∨
    parsePing s = Except.error ParseError.numericOverflow ∨
    ∃ ts n, n ≤ 65535 ∧ parsePing s = Except.ok { timestamp := ts, ms := n } := by
  cases hf : findPing s.data with
  | none =>
      left
      unfold parsePing
      rw [hf]
  | some p =>
      obtain ⟨ts, ds⟩ := p
      rcases parseU16_cases ds 0 (by omega) with hu | hu | ⟨n, hn, hu⟩
      · right; left
        unfold parsePing
        simp only [hf, hu]
      · right; right; left
        unfold parsePing
        simp only [hf, hu]
      · right; right; right
        refine ⟨String.mk ts, n, hn, ?_⟩
        unfold parsePing
        simp only [hf, hu]

/-- C8: appending any list of parsed samples to an initially empty sample
log produces exactly one newline-terminated line per sample, in append
order, each line being the timestamp, a space, and the decimal latency; and
the effect trace is exactly one write of that line followed immediately by
one flush, for every sample.  The hypothesis that parsed timestamps contain
no newline holds for every sample the parser can produce, since the regex
group cannot cross a newline. -/
theorem C8_sink_lines (ps : List Ping)
    (h : ∀ p ∈ ps, ∀ c ∈ p.timestamp.data, c ≠ '\n') :
    linesOf (sinkRun ps).1 = ps.map renderPing ∧
    (sinkRun ps).2 = (ps.map
      (fun p => [SinkOp.write (renderPing p ++ ['\n']), SinkOp.flush])).flatten := by
  unfold sinkRun
  rw [sink_fold ps [] []]
  constructor
  · simp only [List.nil_append]
    exact linesOf_flatten ps h
  · simp only [List.nil_append]

/-- C8 witness: the sink applied to one sample, the spec's end-to-end
example reading. -/
theorem C8_witness :
    (∀ p ∈ [({ timestamp := "2024-01-01T00:00:00Z", ms := 23 } : Ping)],
        ∀ c ∈ p.timestamp.data, c ≠ '\n') ∧
    (linesOf (sinkRun [({ timestamp := "2024-01-01T00:00:00Z", ms := 23 } : Ping)]).1
        = [({ timestamp := "2024-01-01T00:00:00Z", ms := 23 } : Ping)].map renderPing ∧
     (sinkRun [({ timestamp := "2024-01-01T00:00:00Z", ms := 23 } : Ping)]).2
        = ([({ timestamp := "2024-01-01T00:00:00Z", ms := 23 } : Ping)].map
            (fun p => [SinkOp.write (renderPing p ++ ['\n']), SinkOp.flush])).flatten) :=
  ⟨by decide, C8_sink_lines [{ timestamp := "2024-01-01T00:00:00Z", ms := 23 }]
    (by decide)⟩

end ConMon
